import Mathlib

/-!
Shallow embedding of the character-level text-generation code in
`src/text_generation_lstm/text_generation_LSTM.py`.

Numeric model: numpy float64 arrays are modelled as lists over `F`, an
exact-real idealization of IEEE floating point (a finite real, `+inf`,
`-inf`, or `nan`); rounding, overflow and underflow are not modelled, but
the special-value propagation of `np.log`, `np.exp`, division and addition
is, because the code relies on it (`np.log(0) = -inf`, `np.exp(-inf) = 0`,
and so on -- numpy emits warnings for these but raises no exception).
-/

/-- IEEE-style scalar: a finite real, plus infinities and nan. -/
inductive F where
  | fin (x : ℝ)
  | pinf
  | ninf
  | nan

namespace F

/-- `np.log`, elementwise semantics: `log x` for `x > 0`, `log 0 = -inf`
(RuntimeWarning, no exception), `log` of a negative number is `nan`. -/
noncomputable def flog : F → F
  | fin x => if 0 < x then fin (Real.log x) else if x = 0 then ninf else nan
  | pinf => pinf
  | ninf => nan
  | nan => nan

/-- `np.exp`: `exp` on finite reals, `exp (-inf) = 0`, `exp (+inf) = +inf`. -/
noncomputable def fexp : F → F
  | fin x => fin (Real.exp x)
  | pinf => pinf
  | ninf => fin 0
  | nan => nan

/-- IEEE addition with special values. -/
noncomputable def fadd : F → F → F
  | fin x, fin y => fin (x + y)
  | fin _, pinf => pinf
  | fin _, ninf => ninf
  | pinf, fin _ => pinf
  | ninf, fin _ => ninf
  | pinf, pinf => pinf
  | ninf, ninf => ninf
  | pinf, ninf => nan
  | ninf, pinf => nan
  | nan, _ => nan
  | _, nan => nan

/-- IEEE division with special values (numpy warns on division by zero and
`0/0` but raises no exception; negative zero is not modelled). -/
noncomputable def fdiv : F → F → F
  | fin x, fin y =>
      if y = 0 then (if x = 0 then nan else if 0 < x then pinf else ninf)
      else fin (x / y)
  | fin _, pinf => fin 0
  | fin _, ninf => fin 0
  | pinf, fin y => if 0 ≤ y then pinf else ninf
  | ninf, fin y => if 0 ≤ y then ninf else pinf
  | pinf, pinf => nan
  | pinf, ninf => nan
  | ninf, pinf => nan
  | ninf, ninf => nan
  | nan, _ => nan
  | _, nan => nan

/-- The IEEE test `x < 0` (false on nan). -/
noncomputable def fltz : F → Bool
  | fin x => decide (x < 0)
  | pinf => false
  | ninf => true
  | nan => false

/-- The IEEE test `x ≤ u` against a finite real `u` (false on nan). -/
noncomputable def fle : F → ℝ → Bool
  | fin x, u => decide (x ≤ u)
  | pinf, _ => false
  | ninf, _ => true
  | nan, _ => false

end F

open F

/-- `np.sum` over a list (exact-real model; associativity of the float sum
is irrelevant here because special values propagate the same way). -/
noncomputable def fsum (l : List F) : F := l.foldl fadd (F.fin 0)

/-- `cumsum` with a running accumulator, used to model `p.cumsum()`. -/
noncomputable def cumsumFrom (acc : F) : List F → List F
  | [] => []
  | x :: xs => let s := fadd acc x; s :: cumsumFrom s xs

/-- `p.cumsum()`. -/
noncomputable def cumsum (l : List F) : List F := cumsumFrom (F.fin 0) l

/-- The tolerance `np.sqrt(np.finfo(np.float64).eps) = 2 ^ (-26)` used by
`np.random.choice` when checking that the probabilities sum to 1. -/
noncomputable def atol : ℝ := 1 / 2 ^ 26

/-- The test `abs(sum(p) - 1) > atol` of `np.random.choice`.  On nan the
comparison is false, so a nan sum passes the check. -/
noncomputable def sumNotOne : F → Bool
  | F.fin s => decide (atol < |s - 1|)
  | F.pinf => true
  | F.ninf => true
  | F.nan => false

/-- `np.random.choice(range(len(p)), p=p)` with the uniform draw `u` made
explicit.  Validation follows numpy: an entry `< 0` raises, a sum further
than `atol` from 1 raises; otherwise the cumulative distribution is
normalized by its last entry (`cdf /= cdf[-1]`) and the draw is resolved by
`searchsorted(cdf, u, side=right)`, which on a sorted array returns the
number of entries `≤ u`.  The population is `range(len(p))`, so the chosen
element is the index itself. -/
noncomputable def npChoice (p : List F) (u : ℝ) : Except String ℕ :=
  if p.any fltz then .error "probabilities are not non-negative"
  else if sumNotOne (fsum p) then .error "probabilities do not sum to 1"
  else
    let cdf := cumsum p
    let last := cdf.getLastD F.nan
    let ncdf := cdf.map fun c => fdiv c last
    .ok (ncdf.countP fun c => fle c u)

/-- The `sample(probs, temperature)` function of the source:
`a = np.log(probs)/temperature`, `dist = np.exp(a)/np.sum(np.exp(a))`,
then a categorical draw from `range(len(probs))` with weights `dist`.
The uniform draw `u ∈ [0,1)` of the random source is an explicit
argument. -/
noncomputable def sample (probs : List F) (temperature : ℝ) (u : ℝ) :
    Except String ℕ :=
  let a := probs.map fun p => fdiv (flog p) (F.fin temperature)
  let e := a.map fexp
  let dist := e.map fun x => fdiv x (fsum e)
  npChoice dist u

/-- `max_len = 8`: the fixed window length. -/
def max_len : ℕ := 8

/-- `chars = list(set(text))`: the vocabulary, modelled as the
duplicate-free list of the distinct characters of the corpus (the
iteration order of a Python set is arbitrary; every property stated below
is order-independent). -/
def charsOf (text : List Char) : List Char := text.dedup

/-- The dict `char_labels = \x7bch:i for i, ch in enumerate(chars)\x7d`:
lookup returns the index of the character in `chars` (for a duplicate-free
`chars` the last-write-wins dict semantics coincides with the first index),
and a missing key raises `KeyError`, modelled as `none`. -/
def char_labels (chars : List Char) (c : Char) : Option ℕ :=
  if c ∈ chars then some (chars.indexOf c) else none

/-- The dict `labels_char = \x7bi:ch for i, ch in enumerate(chars)\x7d`:
lookup returns the character at the index, `KeyError` (`none`) when the
index is out of range. -/
def labels_char (chars : List Char) (i : ℕ) : Option Char := chars.get? i

/-- One row of the one-hot input tensor: a zero row of length `V` with a 1
written at column `lbl` (the inner effect of `x[0, t, char_labels[char]] = 1.`
on the zero-initialized array). -/
def oneHotRow (V lbl : ℕ) : List ℝ :=
  (List.range V).map fun j => if j = lbl then 1 else 0

/-- The labels of the window characters in order, as produced by the
lookups `char_labels[char]` of the encoding loop; the first out-of-vocabulary
character raises `KeyError`. -/
def seqLabels (chars : List Char) : List Char → Except String (List ℕ)
  | [] => .ok []
  | c :: cs =>
    match char_labels chars c with
    | none => .error "KeyError"
    | some l =>
      match seqLabels chars cs with
      | .error e => .error e
      | .ok ls => .ok (l :: ls)

/-- The encoding loop of `generate`:
`x = np.zeros((1, max_len, len(chars)))` followed by
`for t, char in enumerate(sentence): x[0, t, char_labels[char]] = 1.`
Rows past the end of `sentence` stay zero; a window longer than `max_len`
would index past row `max_len - 1` and raise `IndexError`. -/
def encodeWindow (chars sentence : List Char) :
    Except String (List (List ℝ)) :=
  if max_len < sentence.length then .error "IndexError"
  else
    match seqLabels chars sentence with
    | .error e => .error e
    | .ok ls =>
      .ok ((List.range max_len).map fun t =>
        if t < ls.length then oneHotRow chars.length (ls.getD t 0)
        else List.replicate chars.length 0)

/-- `np.argmax`: the first index attaining the maximum (the decoding half
of the one-hot pair, as described by the spec). -/
noncomputable def argmax (row : List ℝ) : ℕ :=
  match row.max? with
  | none => 0
  | some m => row.indexOf m

/-- Decoding a one-hot matrix: arg-max per row, then the label-to-character
map. -/
noncomputable def decodeMatrix (chars : List Char) (m : List (List ℝ)) :
    List (Option Char) :=
  m.map fun row => labels_char chars (argmax row)

/-- The `while predict_more(generated)` loop of `generate`.  `predict` is
the model oracle (`model.predict(x, verbose=0)[0]`, deterministic for fixed
weights) and `us k` is the uniform draw consumed by the `k`-th call to
`sample`. -/
noncomputable def genLoop (chars : List Char)
    (predict : List (List ℝ) → List F) (us : ℕ → ℝ) (temperature : ℝ)
    (num_chars : ℕ) (sentence generated : List Char) (k : ℕ) :
    Except String (List Char) :=
  if h : generated.length < num_chars then
    match encodeWindow chars sentence with
    | .error e => .error e
    | .ok x =>
      let probs := predict x
      match sample probs temperature (us k) with
      | .error e => .error e
      | .ok next_idx =>
        match labels_char chars next_idx with
        | none => .error "KeyError"
        | some next_char =>
          genLoop chars predict us temperature num_chars
            (sentence.drop 1 ++ [next_char]) (generated ++ [next_char])
            (k + 1)
  else .ok generated
termination_by num_chars - generated.length
decreasing_by simp [List.length_append]; omega

/-- The error message of the seed-length check,
`'Seed text must be at least \x7b\x7d chars long'.format(max_len)`. -/
def seedErrMsg : String :=
  "Seed text must be at least " ++ toString max_len ++ " chars long"

/-- The test `seed is not None and len(seed) < max_len`. -/
def seedTooShort : Option (List Char) → Bool
  | some s => decide (s.length < max_len)
  | none => false

/-- The `generate(temperature, seed, num_chars)` function.  `text` and
`chars` are the module-level corpus and vocabulary; `start_idx` is the
value drawn by `random.randint(0, len(text) - max_len - 1)` (`randint`
raises `ValueError` when the upper bound is negative, i.e. when
`len(text) < max_len + 1`).  Note that the `else` branch is attached to the
seed-length validation, exactly as in the source: whenever the check does
not raise -- including for a valid caller-supplied seed -- `seed` is
reassigned to the random corpus window. -/
noncomputable def generate (text chars : List Char)
    (predict : List (List ℝ) → List F) (us : ℕ → ℝ) (start_idx : ℕ)
    (temperature : ℝ) (seed : Option (List Char)) (num_chars : ℕ) :
    Except String (List Char) :=
  if seedTooShort seed then .error seedErrMsg
  else if text.length < max_len + 1 then
    .error "empty range for randrange()"
  else
    let sentence := (text.drop start_idx).take max_len
    genLoop chars predict us temperature num_chars sentence sentence 0

lemma genLoop_stop (chars : List Char) (predict : List (List ℝ) → List F)
    (us : ℕ → ℝ) (temperature : ℝ) (num_chars : ℕ)
    (sentence generated : List Char) (k : ℕ)
    (h : ¬ generated.length < num_chars) :
    genLoop chars predict us temperature num_chars sentence generated k =
      .ok generated := by
  unfold genLoop
  rw [dif_neg h]

lemma genLoop_extends (chars : List Char) (predict : List (List ℝ) → List F)
    (us : ℕ → ℝ) (temperature : ℝ) (num_chars : ℕ) :
    ∀ (n : ℕ) (sentence generated : List Char) (k : ℕ) (res : List Char),
      num_chars - generated.length = n →
      genLoop chars predict us temperature num_chars sentence generated k =
        .ok res →
      ∃ t, res = generated ++ t := by
  intro n
  induction n using Nat.strong_induction_on with
  | _ n ih =>
    intro sentence generated k res hn hok
    unfold genLoop at hok
    by_cases h : generated.length < num_chars
    · rw [dif_pos h] at hok
      cases hE : encodeWindow chars sentence with
      | error e => rw [hE] at hok; exact absurd hok (by simp)
      | ok x =>
        rw [hE] at hok
        simp only at hok
        cases hS : sample (predict x) temperature (us k) with
        | error e => rw [hS] at hok; exact absurd hok (by simp)
        | ok next_idx =>
          rw [hS] at hok
          simp only at hok
          cases hL : labels_char chars next_idx with
          | none => rw [hL] at hok; exact absurd hok (by simp)
          | some next_char =>
            rw [hL] at hok
            obtain ⟨t, ht⟩ :=
              ih (num_chars - (generated ++ [next_char]).length)
                (by subst hn; simp [List.length_append]; omega)
                _ _ _ _ rfl hok
            exact ⟨next_char :: t, by simp [ht]⟩
    · rw [dif_neg h] at hok
      injection hok with h1
      exact ⟨[], by simp [← h1]⟩

lemma genLoop_len (chars : List Char) (predict : List (List ℝ) → List F)
    (us : ℕ → ℝ) (temperature : ℝ) (num_chars : ℕ) :
    ∀ (n : ℕ) (sentence generated : List Char) (k : ℕ) (res : List Char),
      num_chars - generated.length = n →
      generated.length ≤ num_chars →
      genLoop chars predict us temperature num_chars sentence generated k =
        .ok res →
      res.length = num_chars := by
  intro n
  induction n using Nat.strong_induction_on with
  | _ n ih =>
    intro sentence generated k res hn hle hok
    unfold genLoop at hok
    by_cases h : generated.length < num_chars
    · rw [dif_pos h] at hok
      cases hE : encodeWindow chars sentence with
      | error e => rw [hE] at hok; exact absurd hok (by simp)
      | ok x =>
        rw [hE] at hok
        simp only at hok
        cases hS : sample (predict x) temperature (us k) with
        | error e => rw [hS] at hok; exact absurd hok (by simp)
        | ok next_idx =>
          rw [hS] at hok
          simp only at hok
          cases hL : labels_char chars next_idx with
          | none => rw [hL] at hok; exact absurd hok (by simp)
          | some next_char =>
            rw [hL] at hok
            exact ih (num_chars - (generated ++ [next_char]).length)
              (by subst hn; simp [List.length_append]; omega)
              _ _ _ _ rfl (by simp [List.length_append]; omega) hok
    · rw [dif_neg h] at hok
      injection hok with h1
      rw [← h1]
      omega

lemma generate_ok_cases (text chars : List Char)
    (predict : List (List ℝ) → List F) (us : ℕ → ℝ) (start_idx : ℕ)
    (temperature : ℝ) (seed : Option (List Char)) (num_chars : ℕ)
    (res : List Char)
    (hok : generate text chars predict us start_idx temperature seed
      num_chars = .ok res) :
    genLoop chars predict us temperature num_chars
      ((text.drop start_idx).take max_len) ((text.drop start_idx).take max_len)
      0 = .ok res := by
  unfold generate at hok
  by_cases h1 : seedTooShort seed
  · rw [if_pos h1] at hok; exact absurd hok (by simp)
  · rw [if_neg h1] at hok
    by_cases h2 : text.length < max_len + 1
    · rw [if_pos h2] at hok; exact absurd hok (by simp)
    · rw [if_neg h2] at hok; exact hok


lemma generate_stop (text chars : List Char)
    (predict : List (List ℝ) → List F) (us : ℕ → ℝ) (start_idx : ℕ)
    (temperature : ℝ) (seed : Option (List Char)) (num_chars : ℕ)
    (h1 : seedTooShort seed = false) (h2 : ¬ text.length < max_len + 1)
    (h3 : ¬ ((text.drop start_idx).take max_len).length < num_chars) :
    generate text chars predict us start_idx temperature seed num_chars =
      .ok ((text.drop start_idx).take max_len) := by
  unfold generate
  rw [h1]
  rw [if_neg (by simp), if_neg h2]
  exact genLoop_stop _ _ _ _ _ _ _ _ h3

/-- A 9-character corpus used for concrete evaluations. -/
def textA : List Char := ['a', 'a', 'a', 'a', 'a', 'a', 'a', 'a', 'a']

/-- Claim C1: the claim asserts that a valid caller-supplied seed is kept
as the starting context.  The code instead overwrites every seed -- the
`else` of the length validation reassigns `seed` to a random corpus
window -- so with seed `"bbbbbbbb"`, corpus `"aaaaaaaaa"`, start draw 0 and
target length 8 the returned text is the corpus window `"aaaaaaaa"`, whose
first `max_len` characters differ from the seed. -/
theorem c1_seed_discarded :
    generate textA ['a'] (fun _ => []) (fun _ => (0 : ℝ)) 0 1
        (some ['b', 'b', 'b', 'b', 'b', 'b', 'b', 'b']) 8 =
      .ok ['a', 'a', 'a', 'a', 'a', 'a', 'a', 'a'] ∧
    (['a', 'a', 'a', 'a', 'a', 'a', 'a', 'a'] : List Char).take max_len ≠
      ['b', 'b', 'b', 'b', 'b', 'b', 'b', 'b'] := by
  constructor
  · have h := generate_stop textA ['a'] (fun _ => []) (fun _ => (0 : ℝ)) 0 1
      (some ['b', 'b', 'b', 'b', 'b', 'b', 'b', 'b']) 8
      (by decide) (by decide) (by decide)
    rw [h]; rfl
  · decide

/-- Claim C2: the claim asserts that with seed length = target length =
`max_len` the seed is returned unchanged.  The loop indeed runs zero
iterations, but the value returned is the random corpus window that
overwrote the seed: with seed `"cccccccc"`, corpus `"aaaaaaaaa"` and start
draw 0, `generate` returns `"aaaaaaaa"`, not the seed. -/
theorem c2_seed_not_returned :
    generate textA ['a'] (fun _ => []) (fun _ => (0 : ℝ)) 0 1
        (some ['c', 'c', 'c', 'c', 'c', 'c', 'c', 'c']) 8 =
      .ok ['a', 'a', 'a', 'a', 'a', 'a', 'a', 'a'] ∧
    (['a', 'a', 'a', 'a', 'a', 'a', 'a', 'a'] : List Char) ≠
      ['c', 'c', 'c', 'c', 'c', 'c', 'c', 'c'] := by
  constructor
  · have h := generate_stop textA ['a'] (fun _ => []) (fun _ => (0 : ℝ)) 0 1
      (some ['c', 'c', 'c', 'c', 'c', 'c', 'c', 'c']) 8
      (by decide) (by decide) (by decide)
    rw [h]; rfl
  · decide

/-- Claim C6: a caller-supplied seed shorter than `max_len` makes
`generate` fail immediately with the exception whose message states the
required minimum length (`max_len = 8`), before any generation step. -/
theorem c6_short_seed (text chars : List Char)
    (predict : List (List ℝ) → List F) (us : ℕ → ℝ) (start_idx : ℕ)
    (temperature : ℝ) (s : List Char) (num_chars : ℕ)
    (hs : s.length < max_len) :
    generate text chars predict us start_idx temperature (some s)
        num_chars =
      .error ("Seed text must be at least " ++ toString max_len ++
        " chars long") := by
  unfold generate
  rw [if_pos (by simp [seedTooShort, hs])]
  rfl

/-- Witness for C6 at the concrete seed `"ab"` of length 2. -/
theorem c6_short_seed_witness :
    generate [] [] (fun _ => []) (fun _ => (0 : ℝ)) 0 1
        (some ['a', 'b']) 20 =
      .error "Seed text must be at least 8 chars long" := by
  have h := c6_short_seed [] [] (fun _ => []) (fun _ => (0 : ℝ)) 0 1
    ['a', 'b'] 20 (by decide)
  rw [h]
  rfl

/-- Claim C5: whenever `generate` returns normally and the target length
is at least the length of the initial window, the returned text has length
exactly `num_chars` (the loop appends one character per iteration until
the target is met). -/
theorem c5_generated_length (text chars : List Char)
    (predict : List (List ℝ) → List F) (us : ℕ → ℝ) (start_idx : ℕ)
    (temperature : ℝ) (seed : Option (List Char)) (num_chars : ℕ)
    (res : List Char) (hnum : max_len ≤ num_chars)
    (hok : generate text chars predict us start_idx temperature seed
      num_chars = .ok res) :
    res.length = num_chars := by
  have hloop := generate_ok_cases text chars predict us start_idx
    temperature seed num_chars res hok
  refine genLoop_len chars predict us temperature num_chars _ _ _ 0 res rfl
    ?_ hloop
  have := List.length_take max_len (text.drop start_idx)
  omega

/-- Witness for C5: a zero-iteration run with `num_chars = 8` returns the
window of length 8. -/
theorem c5_generated_length_witness :
    ((textA.drop 0).take max_len).length = 8 :=
  c5_generated_length textA ['a'] (fun _ => []) (fun _ => (0 : ℝ)) 0 1
    none 8 _ (by decide)
    (generate_stop textA ['a'] (fun _ => []) (fun _ => (0 : ℝ)) 0 1
      none 8 (by decide) (by decide) (by decide))

/-- Claim C10: whenever `generate` returns normally (whatever seed was
passed), the first `max_len` characters of the result are the corpus
window `text[start_idx : start_idx + max_len]`, a contiguous substring of
the corpus of length exactly `max_len`, where `start_idx` is the draw of
`random.randint(0, len(text) - max_len - 1)`. -/
theorem c10_window_is_corpus_slice (text chars : List Char)
    (predict : List (List ℝ) → List F) (us : ℕ → ℝ) (start_idx : ℕ)
    (temperature : ℝ) (seed : Option (List Char)) (num_chars : ℕ)
    (res : List Char) (hstart : start_idx + max_len + 1 ≤ text.length)
    (hok : generate text chars predict us start_idx temperature seed
      num_chars = .ok res) :
    res.take max_len = (text.drop start_idx).take max_len ∧
      ((text.drop start_idx).take max_len).length = max_len := by
  have hloop := generate_ok_cases text chars predict us start_idx
    temperature seed num_chars res hok
  obtain ⟨t, ht⟩ := genLoop_extends chars predict us temperature num_chars
    _ _ _ 0 res rfl hloop
  have hlen : ((text.drop start_idx).take max_len).length = max_len := by
    rw [List.length_take, List.length_drop]
    omega
  exact ⟨by rw [ht]; exact List.take_left' hlen, hlen⟩

/-- Witness for C10: with the valid seed `"bbbbbbbb"` passed and start
draw 0 on the corpus `"aaaaaaaaa"`, the result starts with the corpus
window, not the seed. -/
theorem c10_window_is_corpus_slice_witness :
    ((textA.drop 0).take max_len).take max_len =
        (textA.drop 0).take max_len ∧
      ((textA.drop 0).take max_len).length = max_len :=
  c10_window_is_corpus_slice textA ['a'] (fun _ => []) (fun _ => (0 : ℝ))
    0 1 (some ['b', 'b', 'b', 'b', 'b', 'b', 'b', 'b']) 8 _ (by decide)
    (generate_stop textA ['a'] (fun _ => []) (fun _ => (0 : ℝ)) 0 1
      (some ['b', 'b', 'b', 'b', 'b', 'b', 'b', 'b']) 8
      (by decide) (by decide) (by decide))


/-- Claim C3 counterexample: the claim asserts that a distribution with a
non-positive component makes `sample` fail with a DomainError.  In the
code `np.log(0)` evaluates to `-inf` (numpy warns but does not raise),
`np.exp(-inf) = 0`, and the resulting weights `[5/8, 0, 3/8]` are a valid
categorical distribution, so `sample([0.5, 0.0, 0.3], 1.0)` returns a
label (here label 0, for the uniform draw 0) instead of raising. -/
theorem c3_counterexample :
    sample [F.fin (1 / 2), F.fin 0, F.fin (3 / 10)] 1 0 = .ok 0 := by
  norm_num [sample, npChoice, flog, fexp, fadd, fdiv, fsum, fltz, fle,
    sumNotOne, atol, cumsum, cumsumFrom, Real.exp_log, List.countP,
    List.countP.go]

/-- Claim C3 amended: `sample([0.5, 0.0, 0.3], 1.0)` does not fail; for
every uniform draw `u ∈ [0, 1)` it returns a label, and only the labels of
the positive components (0 and 2) can be returned -- the zero component is
mapped by `log` to `-inf` and by `exp` to probability 0, never chosen. -/
theorem c3_zero_component_returns_label (u : ℝ) (h0 : 0 ≤ u) (h1 : u < 1) :
    ∃ l, sample [F.fin (1 / 2), F.fin 0, F.fin (3 / 10)] 1 u = .ok l ∧
      (l = 0 ∨ l = 2) := by
  have hu1 : ¬ (1 : ℝ) ≤ u := not_le.mpr h1
  rcases lt_or_le u (5 / 8) with h | h
  · refine ⟨0, ?_, Or.inl rfl⟩
    have h58 : ¬ (5 / 8 : ℝ) ≤ u := not_le.mpr h
    norm_num [sample, npChoice, flog, fexp, fadd, fdiv, fsum, fltz, fle,
      sumNotOne, atol, cumsum, cumsumFrom, Real.exp_log, List.countP,
      List.countP.go, h58, hu1]
  · refine ⟨2, ?_, Or.inr rfl⟩
    norm_num [sample, npChoice, flog, fexp, fadd, fdiv, fsum, fltz, fle,
      sumNotOne, atol, cumsum, cumsumFrom, Real.exp_log, List.countP,
      List.countP.go, h, hu1]

/-- Witness for the amended C3 at the concrete draw `u = 0`. -/
theorem c3_zero_component_returns_label_witness :
    ∃ l, sample [F.fin (1 / 2), F.fin 0, F.fin (3 / 10)] 1 0 = .ok l ∧
      (l = 0 ∨ l = 2) :=
  c3_zero_component_returns_label 0 (by norm_num) (by norm_num)

/-- Claim C4 counterexample: the claim asserts that `sample` (and
`generate`) reject `temperature ≤ 0` before any computation.  The code
contains no temperature check at all: with `temperature = -1` and the
distribution `[1, 1]`, the transform `exp(log(p)/(-1))` is well defined
and `sample` returns a label (label 0 for the uniform draw 0) -- nothing
is rejected. -/
theorem c4_counterexample :
    sample [F.fin 1, F.fin 1] (-1) 0 = .ok 0 := by
  norm_num [sample, npChoice, flog, fexp, fadd, fdiv, fsum, fltz, fle,
    sumNotOne, atol, cumsum, cumsumFrom, Real.log_one, Real.exp_zero,
    List.countP, List.countP.go]

/-- Claim C4 amended: no temperature validation exists; a call with
negative temperature proceeds through the whole Boltzmann transform and
returns a label for every uniform draw `u ∈ [0, 1)`. -/
theorem c4_negative_temperature_returns_label (u : ℝ) (h0 : 0 ≤ u)
    (h1 : u < 1) :
    ∃ l, sample [F.fin 1, F.fin 1] (-1) u = .ok l ∧ l < 2 := by
  have hu1 : ¬ (1 : ℝ) ≤ u := not_le.mpr h1
  rcases lt_or_le u (1 / 2) with h | h
  · refine ⟨0, ?_, by norm_num⟩
    have h12 : ¬ (1 / 2 : ℝ) ≤ u := not_le.mpr h
    norm_num [sample, npChoice, flog, fexp, fadd, fdiv, fsum, fltz, fle,
      sumNotOne, atol, cumsum, cumsumFrom, Real.log_one, Real.exp_zero,
      List.countP, List.countP.go, h12, hu1]
  · refine ⟨1, ?_, by norm_num⟩
    norm_num [sample, npChoice, flog, fexp, fadd, fdiv, fsum, fltz, fle,
      sumNotOne, atol, cumsum, cumsumFrom, Real.log_one, Real.exp_zero,
      List.countP, List.countP.go, h, hu1]

/-- Witness for the amended C4 at the concrete draw `u = 0`. -/
theorem c4_negative_temperature_returns_label_witness :
    ∃ l, sample [F.fin 1, F.fin 1] (-1) 0 = .ok l ∧ l < 2 :=
  c4_negative_temperature_returns_label 0 (by norm_num) (by norm_num)

lemma fle_fdiv_self (L : F) (u : ℝ) (hu : u < 1) :
    fle (fdiv L L) u = false := by
  cases L with
  | fin c =>
    by_cases hc : c = 0
    · simp [fdiv, hc, fle]
    · simp [fdiv, hc, fle, div_self hc]
      exact hu
  | pinf => simp [fdiv, fle]
  | ninf => simp [fdiv, fle]
  | nan => simp [fdiv, fle]

lemma cumsumFrom_length (l : List F) : ∀ acc, (cumsumFrom acc l).length = l.length := by
  induction l with
  | nil => intro acc; rfl
  | cons x xs ih => intro acc; simp [cumsumFrom, ih]

lemma countP_lt_length_of_getLast? (p : F → Bool) :
    ∀ (l : List F) (c : F), l.getLast? = some c → p c = false →
      l.countP p < l.length := by
  intro l
  induction l with
  | nil => intro c hc _; simp at hc
  | cons x xs ih =>
    intro c hc hp
    cases xs with
    | nil =>
      simp [List.getLast?] at hc
      subst hc
      simp [List.countP_cons, hp]
    | cons y ys =>
      rw [List.getLast?_cons_cons] at hc
      have h1 := ih c hc hp
      simp only [List.length_cons] at h1 ⊢
      rw [List.countP_cons]
      by_cases hx : p x <;> simp [hx] <;> omega

/-- The index returned by `np.random.choice` is a valid index into the
weight vector: the normalized cumulative distribution ends with
`cdf[-1]/cdf[-1]`, which never compares `≤ u` for a uniform draw
`u < 1`. -/
lemma npChoice_ok_lt (p : List F) (u : ℝ) (l : ℕ) (hu : u < 1)
    (hok : npChoice p u = .ok l) : l < p.length := by
  unfold npChoice at hok
  by_cases h1 : p.any fltz
  · rw [if_pos h1] at hok; exact absurd hok (by simp)
  · rw [if_neg h1] at hok
    by_cases h2 : sumNotOne (fsum p) = true
    · rw [if_pos h2] at hok; exact absurd hok (by simp)
    · rw [if_neg h2] at hok
      simp only at hok
      injection hok with hok
      -- p is nonempty: an empty p has float sum 0, which fails the
      -- sum-to-one check
      have hpne : p ≠ [] := by
        intro hnil
        subst hnil
        simp [sumNotOne, fsum, atol] at h2
        norm_num at h2
      have hcne : cumsum p ≠ [] := by
        intro hnil
        have hnil' : cumsumFrom (F.fin 0) p = [] := hnil
        have hl := cumsumFrom_length p (F.fin 0)
        rw [hnil'] at hl
        simp at hl
        exact hpne (List.eq_nil_of_length_eq_zero hl.symm)
      obtain ⟨c, hc⟩ : ∃ c, (cumsum p).getLast? = some c :=
        ⟨_, List.getLast?_eq_getLast _ hcne⟩
      have hlastD : (cumsum p).getLastD F.nan = c := by
        rw [List.getLastD_eq_getLast?, hc]; rfl
      have hmaplast :
          ((cumsum p).map fun x => fdiv x ((cumsum p).getLastD F.nan)).getLast?
            = some (fdiv c c) := by
        rw [List.getLast?_map, hc, hlastD]; rfl
      have hcount := countP_lt_length_of_getLast? (fun x => fle x u) _ _
        hmaplast (fle_fdiv_self c u hu)
      rw [← hok]
      calc (((cumsum p).map fun x => fdiv x ((cumsum p).getLastD F.nan)).countP
              fun x => fle x u)
          < ((cumsum p).map fun x => fdiv x ((cumsum p).getLastD F.nan)).length :=
            hcount
        _ = p.length := by
            rw [List.length_map]
            exact cumsumFrom_length p (F.fin 0)

/-- The label returned by `sample` lies in `[0, len(probs))`. -/
lemma sample_ok_lt (probs : List F) (temperature u : ℝ) (l : ℕ)
    (hu : u < 1) (hok : sample probs temperature u = .ok l) :
    l < probs.length := by
  unfold sample at hok
  have := npChoice_ok_lt _ u l hu hok
  simpa using this

lemma genLoop_mem (chars : List Char) (predict : List (List ℝ) → List F)
    (us : ℕ → ℝ) (temperature : ℝ) (num_chars : ℕ) :
    ∀ (n : ℕ) (sentence generated : List Char) (k : ℕ) (res : List Char),
      num_chars - generated.length = n →
      genLoop chars predict us temperature num_chars sentence generated k =
        .ok res →
      ∃ t, res = generated ++ t ∧ ∀ c ∈ t, c ∈ chars := by
  intro n
  induction n using Nat.strong_induction_on with
  | _ n ih =>
    intro sentence generated k res hn hok
    unfold genLoop at hok
    by_cases h : generated.length < num_chars
    · rw [dif_pos h] at hok
      cases hE : encodeWindow chars sentence with
      | error e => rw [hE] at hok; exact absurd hok (by simp)
      | ok x =>
        rw [hE] at hok
        simp only at hok
        cases hS : sample (predict x) temperature (us k) with
        | error e => rw [hS] at hok; exact absurd hok (by simp)
        | ok next_idx =>
          rw [hS] at hok
          simp only at hok
          cases hL : labels_char chars next_idx with
          | none => rw [hL] at hok; exact absurd hok (by simp)
          | some next_char =>
            rw [hL] at hok
            have hmem : next_char ∈ chars := List.get?_mem hL
            obtain ⟨t, ht, htmem⟩ :=
              ih (num_chars - (generated ++ [next_char]).length)
                (by subst hn; simp [List.length_append]; omega)
                _ _ _ _ rfl hok
            refine ⟨next_char :: t, by simp [ht], ?_⟩
            intro c hc
            rcases List.mem_cons.mp hc with hc | hc
            · rw [hc]; exact hmem
            · exact htmem c hc
    · rw [dif_neg h] at hok
      injection hok with h1
      exact ⟨[], by simp [← h1], by simp⟩

/-- Claim C7: closed-vocabulary invariant.  For well-formed randomness
(`us k < 1`, as `random_sample` draws from `[0,1)`) and an oracle that
returns length-`V` distributions, every label a successful `sample` call
returns lies in `[0, V)`, and consequently every character `generate`
appends after the initial `max_len`-character window is a member of the
vocabulary. -/
theorem c7_closed_vocabulary (text chars : List Char)
    (predict : List (List ℝ) → List F) (us : ℕ → ℝ) (start_idx : ℕ)
    (temperature : ℝ) (seed : Option (List Char)) (num_chars : ℕ)
    (res : List Char)
    (hu : ∀ k, us k < 1)
    (hp : ∀ x, (predict x).length = chars.length)
    (hstart : start_idx + max_len + 1 ≤ text.length)
    (hok : generate text chars predict us start_idx temperature seed
      num_chars = .ok res) :
    (∀ (x : List (List ℝ)) (k l : ℕ),
        sample (predict x) temperature (us k) = .ok l → l < chars.length) ∧
      ∀ c ∈ res.drop max_len, c ∈ chars := by
  constructor
  · intro x k l hs
    have := sample_ok_lt (predict x) temperature (us k) l (hu k) hs
    rwa [hp x] at this
  · have hloop := generate_ok_cases text chars predict us start_idx
      temperature seed num_chars res hok
    obtain ⟨t, ht, htmem⟩ := genLoop_mem chars predict us temperature
      num_chars _ _ _ 0 res rfl hloop
    have hlen : ((text.drop start_idx).take max_len).length = max_len := by
      rw [List.length_take, List.length_drop]
      omega
    intro c hc
    rw [ht, List.drop_append_of_le_length (by omega),
      List.drop_eq_nil_of_le (le_of_eq hlen)] at hc
    simp at hc
    exact htmem c hc

lemma sample_single_eval : sample [F.fin 1] 1 0 = .ok 0 := by
  norm_num [sample, npChoice, flog, fexp, fadd, fdiv, fsum, fltz, fle,
    sumNotOne, atol, cumsum, cumsumFrom, Real.log_one, Real.exp_zero,
    List.countP, List.countP.go]

lemma generate_one_step_eval :
    generate textA ['a'] (fun _ => [F.fin 1]) (fun _ => (0 : ℝ)) 0 1 none 9 =
      .ok textA := by
  unfold generate
  rw [show seedTooShort none = false from rfl]
  rw [if_neg (by simp), if_neg (by decide)]
  have hw : (textA.drop 0).take max_len =
      ['a', 'a', 'a', 'a', 'a', 'a', 'a', 'a'] := by decide
  rw [hw]
  unfold genLoop
  rw [dif_pos (by decide)]
  obtain ⟨x, hE⟩ : ∃ x,
      encodeWindow ['a'] ['a', 'a', 'a', 'a', 'a', 'a', 'a', 'a'] =
        .ok x := by
    unfold encodeWindow
    rw [if_neg (by decide)]
    have hs : seqLabels ['a'] ['a', 'a', 'a', 'a', 'a', 'a', 'a', 'a'] =
        .ok [0, 0, 0, 0, 0, 0, 0, 0] := by rfl
    rw [hs]
    exact ⟨_, rfl⟩
  rw [hE]
  simp only
  rw [sample_single_eval]
  simp only
  rw [show labels_char ['a'] 0 = some 'a' from rfl]
  simp only
  rw [show List.drop 1 ['a', 'a', 'a', 'a', 'a', 'a', 'a', 'a'] ++ ['a'] =
      ['a', 'a', 'a', 'a', 'a', 'a', 'a', 'a'] from by decide]
  rw [show (['a', 'a', 'a', 'a', 'a', 'a', 'a', 'a'] : List Char) ++ ['a'] =
      textA from by decide]
  unfold genLoop
  rw [dif_neg (by decide)]

/-- Witness for C7: on the corpus `"aaaaaaaaa"` with one generation step,
the appended character (the character after the initial window) is `'a'`,
a member of the vocabulary `['a']`. -/
theorem c7_closed_vocabulary_witness :
    textA.drop max_len = ['a'] ∧ 'a' ∈ (['a'] : List Char) :=
  ⟨by decide,
    (c7_closed_vocabulary textA ['a'] (fun _ => [F.fin 1])
      (fun _ => (0 : ℝ)) 0 1 none 9 textA (fun _ => by norm_num)
      (fun _ => rfl) (by decide) generate_one_step_eval).2 'a' (by decide)⟩


/-- Claim C8: vocabulary round-trip.  For every corpus character,
`labels_char` inverts `char_labels`; the set of labels assigned to the
vocabulary characters is exactly the interval `[0, V)` (no gaps), and the
assignment is injective (no duplicates). -/
theorem c8_vocabulary_roundtrip (text : List Char) :
    (∀ c ∈ text,
        ((char_labels (charsOf text) c).bind fun l =>
          labels_char (charsOf text) l) = some c) ∧
    (∀ i : ℕ, (∃ c ∈ charsOf text, char_labels (charsOf text) c = some i) ↔
        i < (charsOf text).length) ∧
    (∀ c1 ∈ charsOf text, ∀ c2 ∈ charsOf text,
        char_labels (charsOf text) c1 = char_labels (charsOf text) c2 →
        c1 = c2) := by
  refine ⟨?_, ?_, ?_⟩
  · intro c hc
    have hmem : c ∈ charsOf text := List.mem_dedup.mpr hc
    simp only [char_labels, if_pos hmem, Option.bind_some, labels_char]
    exact List.indexOf_get? hmem
  · intro i
    constructor
    · rintro ⟨c, hc, hl⟩
      simp only [char_labels, if_pos hc, Option.some.injEq] at hl
      rw [← hl]
      exact List.indexOf_lt_length.mpr hc
    · intro hi
      have hmem : (charsOf text)[i] ∈ charsOf text := List.getElem_mem hi
      refine ⟨(charsOf text)[i], hmem, ?_⟩
      simp only [char_labels, if_pos hmem, Option.some.injEq]
      exact List.indexOf_getElem (List.nodup_dedup text) i hi
  · intro c1 h1 c2 h2 heq
    simp only [char_labels, if_pos h1, if_pos h2, Option.some.injEq] at heq
    have e1 := List.indexOf_get? h1
    have e2 := List.indexOf_get? h2
    rw [heq] at e1
    rw [e1] at e2
    exact Option.some.inj e2

/-- Witness for C8 on the corpus `"aba"` at the character `'b'`. -/
theorem c8_vocabulary_roundtrip_witness :
    ((char_labels (charsOf ['a', 'b', 'a']) 'b').bind fun l =>
      labels_char (charsOf ['a', 'b', 'a']) l) = some 'b' :=
  (c8_vocabulary_roundtrip ['a', 'b', 'a']).1 'b' (by decide)

lemma seqLabels_of_mem (chars : List Char) :
    ∀ sentence : List Char, (∀ c ∈ sentence, c ∈ chars) →
      seqLabels chars sentence = .ok (sentence.map fun c => chars.indexOf c)
  | [], _ => rfl
  | c :: cs, h => by
    have hc : c ∈ chars := h c (by simp)
    have ih := seqLabels_of_mem chars cs fun x hx => h x (by simp [hx])
    simp only [seqLabels, char_labels, if_pos hc, ih, List.map]

lemma oneHotRow_eq (V l : ℕ) (hl : l < V) :
    oneHotRow V l =
      List.replicate l 0 ++ (1 : ℝ) :: List.replicate (V - (l + 1)) 0 := by
  refine List.ext_getElem? fun j => ?_
  rcases lt_or_le j V with hj | hj
  · rw [show (oneHotRow V l)[j]? = some (if j = l then 1 else 0) from by
      simp [oneHotRow, List.getElem?_map, List.getElem?_range, hj]]
    rcases lt_trichotomy j l with hjl | hjl | hjl
    · rw [List.getElem?_append_left (by simpa using hjl),
        List.getElem?_replicate_of_lt hjl]
      simp [hjl.ne]
    · subst hjl
      rw [List.getElem?_append_right (by simp)]
      simp
    · have h1 : (List.replicate l (0 : ℝ)).length ≤ j := by simp; omega
      rw [List.getElem?_append_right h1]
      simp only [List.length_replicate]
      have h2 : j - l = (j - l - 1) + 1 := by omega
      rw [h2, List.getElem?_cons_succ,
        List.getElem?_replicate_of_lt (by omega)]
      have hne : ¬ j = l := by omega
      simp [hne]
  · have hL : (oneHotRow V l).length ≤ j := by simp [oneHotRow]; omega
    have hR : (List.replicate l (0 : ℝ) ++
        1 :: List.replicate (V - (l + 1)) 0).length ≤ j := by simp; omega
    rw [List.getElem?_eq_none hL, List.getElem?_eq_none hR]

lemma oneHotRow_sum (V l : ℕ) (hl : l < V) : (oneHotRow V l).sum = 1 := by
  rw [oneHotRow_eq V l hl]
  simp

lemma oneHotRow_max (V l : ℕ) (hl : l < V) :
    (oneHotRow V l).max? = some 1 := by
  have anti : Std.Antisymm ((· ≤ ·) : ℝ → ℝ → Prop) :=
    ⟨fun h h' => le_antisymm h h'⟩
  rw [List.max?_eq_some_iff le_refl max_choice (fun a b c => max_le_iff)]
  constructor
  · rw [oneHotRow_eq V l hl]
    simp
  · intro b hb
    rw [oneHotRow_eq V l hl] at hb
    rcases List.mem_append.mp hb with hb | hb
    · rw [List.eq_of_mem_replicate hb]
      norm_num
    · rcases List.mem_cons.mp hb with hb | hb
      · rw [hb]
      · rw [List.eq_of_mem_replicate hb]
        norm_num

lemma argmax_oneHotRow (V l : ℕ) (hl : l < V) :
    argmax (oneHotRow V l) = l := by
  unfold argmax
  rw [oneHotRow_max V l hl]
  simp only
  rw [oneHotRow_eq V l hl]
  rw [List.indexOf_append_of_not_mem (by simp [List.mem_replicate])]
  simp [List.indexOf_cons_self]

/-- Claim C9: one-hot encode/decode round trip.  For a window of exactly
`max_len` in-vocabulary characters, the encoding loop produces a matrix
whose rows each sum to exactly 1, and taking the arg-max of each row and
mapping it through `labels_char` reproduces the window. -/
theorem c9_onehot_roundtrip (chars sentence : List Char)
    (hlen : sentence.length = max_len) (hmem : ∀ c ∈ sentence, c ∈ chars) :
    ∃ m, encodeWindow chars sentence = .ok m ∧
      (∀ row ∈ m, row.sum = 1) ∧
      decodeMatrix chars m = sentence.map some := by
  have hs := seqLabels_of_mem chars sentence hmem
  unfold encodeWindow
  rw [if_neg (by omega)]
  rw [hs]
  simp only
  refine ⟨_, rfl, ?_, ?_⟩
  · intro row hrow
    simp only [List.mem_map, List.mem_range] at hrow
    obtain ⟨t, ht, hrow⟩ := hrow
    have hlt : t < (sentence.map fun c => chars.indexOf c).length := by
      simpa [hlen] using ht
    rw [if_pos hlt] at hrow
    have htl : t < sentence.length := by simpa using hlt
    have hgd : (sentence.map fun c => chars.indexOf c).getD t 0 =
        chars.indexOf (sentence.get ⟨t, htl⟩) := by
      rw [List.getD_eq_getElem _ 0 hlt]
      exact List.getElem_map _
    rw [← hrow, hgd]
    exact oneHotRow_sum _ _
      (List.indexOf_lt_length.mpr (hmem _ (List.getElem_mem htl)))
  · unfold decodeMatrix
    refine List.ext_getElem (by simp [hlen]) ?_
    intro t h1 h2
    have htl : t < sentence.length := by simpa using h2
    have hlt : t < (sentence.map fun c => chars.indexOf c).length := by
      simpa using htl
    simp only [List.getElem_map, List.getElem_range]
    rw [if_pos (by simpa [hlen] using htl)]
    have hgd : (sentence.map fun c => chars.indexOf c).getD t 0 =
        chars.indexOf (sentence.get ⟨t, htl⟩) := by
      rw [List.getD_eq_getElem _ 0 hlt]
      exact List.getElem_map _
    rw [hgd, argmax_oneHotRow _ _
      (List.indexOf_lt_length.mpr (hmem _ (List.get_mem _ _ htl)))]
    exact List.indexOf_get? (hmem _ (List.get_mem _ _ htl))

/-- Witness for C9 on the window `"abababab"` over the vocabulary
`['a', 'b']`. -/
theorem c9_onehot_roundtrip_witness :
    ∃ m, encodeWindow ['a', 'b']
        ['a', 'b', 'a', 'b', 'a', 'b', 'a', 'b'] = .ok m ∧
      (∀ row ∈ m, row.sum = 1) ∧
      decodeMatrix ['a', 'b'] m =
        ['a', 'b', 'a', 'b', 'a', 'b', 'a', 'b'].map some :=
  c9_onehot_roundtrip ['a', 'b'] ['a', 'b', 'a', 'b', 'a', 'b', 'a', 'b']
    (by decide) (by decide)
